import Mathlib

/-!
Shallow embedding of `src/index.ts` of vite-plugin-wasm-pack: a Vite plugin
that resolves registered wasm-pack crates, runs the external compiler,
serves the compiled `.wasm` artifact during dev, and emits it as a build
asset.  Node's posix `path` functions (`resolve`, `join`, `basename`,
`dirname`) are modelled over character lists; JS `Map` is modelled as an
association list with JS `Map.set` update semantics; the host bundler's
diagnostic functions (`this.warn`, `this.error`) are modelled as append-only
logs per the spec's interface section; the external process (`exec`) and the
filesystem are oracles passed explicitly.
-/

namespace WasmPackPlugin

/-! ### Node `path` model (posix) -/

/-- Split a character list on `'/'` (like `"a/b".split("/")`), keeping empty
chunks.  `splitSlash [] = [[]]`. -/
def splitSlash : List Char → List (List Char)
  | [] => [[]]
  | c :: rest =>
    if c = '/' then [] :: splitSlash rest
    else
      match splitSlash rest with
      | [] => [[c]]
      | h :: t => (c :: h) :: t

/-- Join path segments with `'/'` separators. -/
def joinSegs : List (List Char) → List Char
  | [] => []
  | [s] => s
  | s :: rest => s ++ '/' :: joinSegs rest

/-- One step of Node path normalization over already-split segments:
drop empty and `"."` segments, let `".."` pop the previous segment
(at the root of an absolute path a `".."` is dropped; in a relative
path leading `".."`s are kept). -/
def normStep (isAbs : Bool) (acc : List (List Char)) (s : List Char) : List (List Char) :=
  if s = [] ∨ s = ['.'] then acc
  else if s = ['.', '.'] then
    match acc.getLast? with
    | some t => if t = ['.', '.'] then acc ++ [s] else acc.dropLast
    | none => if isAbs then [] else [s]
  else acc ++ [s]

/-- Node path normalization over split segments. -/
def normSegs (isAbs : Bool) (segs : List (List Char)) : List (List Char) :=
  segs.foldl (normStep isAbs) []

/-- Whether a character list starts with `'/'`. -/
def headIsSlash : List Char → Bool
  | [] => false
  | c :: _ => c = '/'

/-- Whether a path string is absolute (starts with `'/'`), as Node's
`path.isAbsolute` checks the first character. -/
def isAbsolutePath (p : String) : Bool := headIsSlash p.data

/-- Model of Node `path.resolve(...ps)` against an absolute working directory
`cwd`: join right-to-left until absolute (a later absolute argument discards
everything to its left), prefix `cwd`, then normalize to an absolute path. -/
def resolvePath (cwd : String) (ps : List String) : String :=
  let joined := ps.foldl (fun acc p => if isAbsolutePath p then p else acc ++ "/" ++ p) cwd
  ⟨'/' :: joinSegs (normSegs true (splitSlash joined.data))⟩

/-- Model of Node `path.basename`: the last nonempty chunk between slashes
(trailing slashes ignored), or `""` when there is none. -/
def basename (p : String) : String :=
  ⟨((splitSlash p.data).filter (fun s => s ≠ [])).getLast?.getD []⟩

/-- Normalization step of Node `path.join` on the nonempty arguments:
join with `'/'`, normalize, preserve relativity; an empty result is `"."`. -/
def joinParts (parts : List String) : String :=
  if headIsSlash (joinSegs (parts.map String.data)) then
    ⟨'/' :: joinSegs (normSegs true (splitSlash (joinSegs (parts.map String.data))))⟩
  else if normSegs false (splitSlash (joinSegs (parts.map String.data))) = [] then "."
  else ⟨joinSegs (normSegs false (splitSlash (joinSegs (parts.map String.data))))⟩

/-- Model of Node `path.join(...ps)`: drop empty arguments, then normalize
as `joinParts`; `path.join()` of nothing is `"."`. -/
def joinPath (ps : List String) : String :=
  if ps.filter (fun p => p ≠ "") = [] then "."
  else joinParts (ps.filter (fun p => p ≠ ""))

/-- Model of Node `path.dirname` on a normalized path: drop the last nonempty
segment. -/
def dirname (p : String) : String :=
  let isAbs := isAbsolutePath p
  let segs := (splitSlash p.data).filter (fun s => s ≠ [])
  match segs.dropLast with
  | [] => if isAbs then "/" else "."
  | l => if isAbs then ⟨'/' :: joinSegs l⟩ else ⟨joinSegs l⟩

/-! ### JS string and Map models -/

/-- Model of JS `String.prototype.toLowerCase()` (character-wise). -/
def jsToLower (s : String) : String := ⟨s.data.map Char.toLower⟩

/-- Model of JS `String.prototype.endsWith(suf)`. -/
def jsEndsWith (s suf : String) : Bool := suf.data.isSuffixOf s.data

/-- Model of a JS `Map<String, β>` as an association list in insertion
order. -/
abbrev JsMap (β : Type) := List (String × β)

/-- JS `Map.prototype.set`: update the value in place when the key exists
(keeping its position), append otherwise. -/
def setA (m : JsMap β) (k : String) (v : β) : JsMap β :=
  if m.any (fun p => p.1 = k) then
    m.map (fun p => if p.1 = k then (k, v) else p)
  else m ++ [(k, v)]

/-- JS `Map.prototype.get` (with `has` as `isSome`). -/
def getA (m : JsMap β) (k : String) : Option β :=
  (m.find? (fun p => p.1 = k)).map (fun p => p.2)

/-! ### Identifier Registry (`_crateName`, `cratePaths.forEach` in `src/index.ts`) -/

/-- Embedding of `_crateName`: `path.basename(path.resolve(cratePath))`,
with the process working directory `cwd` explicit. -/
def _crateName (cwd cratePath : String) : String :=
  basename (resolvePath cwd [cratePath])

/-- The derived artifact filename: `crateName + '_bg.wasm'`. -/
def wasmFilename (cwd cratePath : String) : String :=
  _crateName cwd cratePath ++ "_bg.wasm"

/-- Embedding of `CrateInfoType = { path: string; name: string }`. -/
structure CrateInfoType where
  path : String
  name : String
deriving DecidableEq, Repr

/-- The `wasmMap` value stored for a crate:
`{ path: path.resolve('node_modules', crateName, wasmFile), name: crateName }`. -/
def crateInfo (cwd cratePath : String) : CrateInfoType :=
  { path := resolvePath cwd ["node_modules", _crateName cwd cratePath,
              wasmFilename cwd cratePath]
    name := _crateName cwd cratePath }

/-- The three lookup tables the plugin closure holds. -/
structure Registry where
  wasmMap : JsMap CrateInfoType
  cratePathLookup : JsMap String
  crateNameLookup : JsMap String
deriving DecidableEq, Repr

/-- Embedding of the `cratePaths.forEach` registry construction. -/
def buildRegistry (cwd : String) (cratePaths : List String) : Registry :=
  cratePaths.foldl
    (fun reg cratePath =>
      let crateName := _crateName cwd cratePath
      let wasmFile := crateName ++ "_bg.wasm"
      let localPath := resolvePath cwd ["node_modules", crateName, wasmFile]
      { wasmMap := setA reg.wasmMap wasmFile { path := localPath, name := crateName }
        cratePathLookup := setA reg.cratePathLookup cratePath wasmFile
        crateNameLookup := setA reg.crateNameLookup crateName wasmFile })
    { wasmMap := [], cratePathLookup := [], crateNameLookup := [] }

/-! ### Compiler Invoker (`_runWasmPackBuild`) -/

/-- Outcome of `child_process.exec`: an optional error plus the captured
stdout and stderr. -/
structure ExecOutcome where
  error : Option String
  stdout : String
  stderr : String
deriving DecidableEq, Repr

/-- The resolved wasm-pack binary:
`path.join(path.dirname(__dirname), 'node_modules', '.bin', 'wasm-pack')`,
with the module's `__dirname` explicit. -/
def wasmPackPath (dirnameVar : String) : String :=
  joinPath [dirname dirnameVar, "node_modules", ".bin", "wasm-pack"]

/-- The command string `_runWasmPackBuild` builds:
`` `${wasmPackPath} build --target web --out-dir ${outDir}` ``.
Note that `cratePath` does not occur in it. -/
def buildCommand (dirnameVar outDir : String) : String :=
  wasmPackPath dirnameVar ++ " build --target web --out-dir " ++ outDir

/-- Embedding of `_runWasmPackBuild(cratePath, outDir)`: the external world
is an oracle `exec` from command strings to outcomes.  The first component
records the commands actually executed (the source calls `exec` exactly
once); the second is the promise outcome: the rejection string
`` `wasm-pack execution error: ${error}` `` on error, else resolution with
`stderr`. -/
def _runWasmPackBuild (exec : String → ExecOutcome) (dirnameVar : String)
    (cratePath : String) (outDir : String) : List String × Except String String :=
  let _ := cratePath
  let command := buildCommand dirnameVar outDir
  ([command],
    match (exec command).error with
    | some e => .error ("wasm-pack execution error: " ++ e)
    | none => .ok (exec command).stderr)

/-- `_runWasmPackBuild` called without its second argument, whose declared
default is `'pkg'`. -/
def _runWasmPackBuildDefault (exec : String → ExecOutcome) (dirnameVar : String)
    (cratePath : String) : List String × Except String String :=
  _runWasmPackBuild exec dirnameVar cratePath "pkg"

/-! ### Module Resolver/Loader (`resolveId`, `load`) -/

/-- The internal marker `prefix = '@wasm-pack@'` (renamed: `prefix` is a
Lean keyword). -/
def marker : String := "@wasm-pack@"

/-- Embedding of `resolveId(id)`. -/
def resolveId (reg : Registry) (id : String) : Option String :=
  if (getA reg.crateNameLookup id).isSome then some (marker ++ id) else none

/-- Result of the `load` hook: not handled (`undefined`), the glue-code
text, or a thrown file-read error. -/
inductive LoadOutcome where
  | skip
  | loaded (code : String)
  | readFail
deriving DecidableEq, Repr

/-- Embedding of `load(id)`: when `id` starts with the marker
(`id.indexOf(prefix) === 0`), strip it (`id.replace(prefix, '')`), read
`path.join('./node_modules', id, id + '.js')` from the filesystem oracle
`fs` and return its text; otherwise return `undefined`. -/
def load (fs : String → Option String) (id : String) : LoadOutcome :=
  if marker.data.isPrefixOf id.data then
    let name : String := ⟨id.data.drop marker.data.length⟩
    let modulejs := joinPath ["./node_modules", name, name ++ ".js"]
    match fs modulejs with
    | some code => .loaded code
    | none => .readFail
  else .skip

/-! ### Build Orchestrator (`buildStart` / `prepareBuild`) -/

/-- A manifest (`package.json`) as a JSON object: field name to value
(values modelled as strings). -/
abbrev Manifest := JsMap String

/-- State threaded through the orchestrator pass: the manifest files on
disk, and the host's diagnostic channels (`this.warn` / `this.error`
modelled as append-only logs; per the spec's interface contract the host's
error-reporting hook is a reporting channel and the orchestrator itself
does not halt on it). -/
structure BuildState where
  fs : JsMap Manifest
  warnLog : List String
  errorLog : List String
deriving DecidableEq, Repr

/-- The crate's output directory `path.resolve('node_modules', crateName)`
used by `prepareBuild`. -/
def localPathOf (cwd cratePath : String) : String :=
  resolvePath cwd ["node_modules", _crateName cwd cratePath]

/-- The command `prepareBuild` ends up executing for a crate. -/
def commandOf (dirnameVar cwd cratePath : String) : String :=
  buildCommand dirnameVar (localPathOf cwd cratePath)

/-- The manifest path `path.join(localPath, 'package.json')`. -/
def manifestPath (cwd cratePath : String) : String :=
  joinPath [localPathOf cwd cratePath, "package.json"]

/-- The `this.warn` message on a successful build. -/
def buildWarnMsg (cratePath out : String) : String :=
  "wasm-pack: crate " ++ cratePath ++ " built\n" ++ out

/-- The `this.error` message of `prepareBuild`'s catch block. -/
def buildErrMsg (crateName cause : String) : String :=
  "vite-plugin-wasm-pack: Couldn't wasm-pack for Rust crate " ++ crateName
    ++ ": \n" ++ cause

/-- The error a failed `fs.readJson` throws, modelled as a missing-file
message. -/
def readJsonErr (p : String) : String :=
  "ENOENT: no such file or directory, open " ++ p

/-- Embedding of `prepareBuild(cratePath)`: run wasm-pack with
`outDir = localPath`; on success emit the warning and patch
`package.json` (`pkgJson.type = 'module'`, rewritten in place); on any
failure inside the try block emit the catch block's error and leave the
filesystem untouched. -/
def prepareBuild (exec : String → ExecOutcome) (dirnameVar cwd : String)
    (st : BuildState) (cratePath : String) : BuildState :=
  let crateName := _crateName cwd cratePath
  let localPath := localPathOf cwd cratePath
  match (_runWasmPackBuild exec dirnameVar cratePath localPath).2 with
  | .error e =>
    { st with errorLog := st.errorLog ++ [buildErrMsg crateName e] }
  | .ok out =>
    let st1 := { st with warnLog := st.warnLog ++ [buildWarnMsg cratePath out] }
    let pkgJsonPath := joinPath [localPath, "package.json"]
    match getA st1.fs pkgJsonPath with
    | none =>
      { st1 with errorLog := st1.errorLog ++ [buildErrMsg crateName (readJsonErr pkgJsonPath)] }
    | some pkgJson =>
      { st1 with fs := setA st1.fs pkgJsonPath (setA pkgJson "type" "module") }

/-- Embedding of `buildStart`: `for await` over the crate paths, awaiting
`prepareBuild` for each in registration order. -/
def buildStart (exec : String → ExecOutcome) (dirnameVar cwd : String)
    (st : BuildState) (cratePaths : List String) : BuildState :=
  cratePaths.foldl (prepareBuild exec dirnameVar cwd) st

/-! ### Dev Artifact Server (`configureServer` middleware) -/

/-- What the middleware does with one request. -/
inductive MiddlewareAction where
  | respond (status : Nat) (headers : List (String × String)) (body : Option String)
  | next
  | hang
deriving DecidableEq, Repr

/-- The two headers the middleware sets on a hit. -/
def wasmHeaders : List (String × String) :=
  [("Cache-Control", "no-cache, no-store, must-revalidate"),
   ("Content-Type", "application/wasm")]

/-- Embedding of the `middlewares.use` handler: when `req.url` is a string,
take its basename, look it up (case-sensitively) in `wasmMap`, and if found
and the lowercased name ends in `'.wasm'`, answer 200 with the no-cache
header, the wasm content type and the artifact file streamed from disk;
otherwise call `next()`.  A non-string `req.url` leaves the request
untouched (neither a response nor `next()`). -/
def devMiddleware (fs : String → Option String) (wasmMap : JsMap CrateInfoType)
    (reqUrl : Option String) : MiddlewareAction :=
  match reqUrl with
  | none => .hang
  | some url =>
    let wasmFile := basename url
    match getA wasmMap wasmFile with
    | some entry =>
      if jsEndsWith (jsToLower wasmFile) ".wasm" then
        .respond 200 wasmHeaders (fs entry.path)
      else .next
    | none => .next

/-! ### Asset Emitter (`buildEnd`) -/

/-- One `this.emitFile({ type: 'asset', fileName, source })` call. -/
structure EmittedAsset where
  fileName : String
  source : String
deriving DecidableEq, Repr

/-- Embedding of `buildEnd`: iterate `wasmMap` in insertion order, reading
each artifact with `fs.readFileSync` and emitting it at
`` `assets/${fileName}` ``.  A failed read throws out of the `forEach`:
the assets already emitted stay emitted, later entries are not reached,
and the second component records whether the pass completed. -/
def buildEnd (fs : String → Option String) :
    JsMap CrateInfoType → List EmittedAsset × Bool
  | [] => ([], true)
  | fc :: rest =>
    match fs fc.2.path with
    | none => ([], false)
    | some bytes =>
      let r := buildEnd fs rest
      ({ fileName := "assets/" ++ fc.1, source := bytes } :: r.1, r.2)

/-! ### Derived notions used by the verification -/

/-- A path segment that normalization keeps as-is. -/
def PlainSeg (s : List Char) : Prop := s ≠ [] ∧ s ≠ ['.'] ∧ s ≠ ['.', '.']

/-- A string usable as a single path component: no separator inside, and a
plain segment for normalization. -/
def PlainName (s : String) : Prop :=
  '/' ∉ s.data ∧ s.data ≠ [] ∧ s.data ≠ ['.'] ∧ s.data ≠ ['.', '.']

/-- Keys of a JsMap are pairwise distinct (an invariant JS `Map` maintains). -/
def keysNodup {β : Type} (m : JsMap β) : Prop := (m.map Prod.fst).Nodup

/-- One lookup table built by folding `Map.set` over the crate list. -/
def tableFold {α β : Type} (key : α → String) (val : α → β) (m0 : JsMap β)
    (l : List α) : JsMap β :=
  l.foldl (fun m p => setA m (key p) (val p)) m0

/-- The asset `buildEnd` emits for one `wasmMap` entry when its file is
readable. -/
def emittedOf (fs : String → Option String)
    (fc : String × CrateInfoType) : EmittedAsset :=
  { fileName := "assets/" ++ fc.1, source := (fs fc.2.path).getD "" }

/-! ### Lemmas about the path model -/

theorem splitSlash_ne_nil (l : List Char) : splitSlash l ≠ [] := by
  induction l with
  | nil => simp [splitSlash]
  | cons c rest ih =>
    by_cases h : c = '/'
    · subst h; simp [splitSlash]
    · simp only [splitSlash, if_neg h]
      cases hr : splitSlash rest with
      | nil => simp
      | cons a t => simp

theorem splitSlash_append (a b : List Char) :
    splitSlash (a ++ '/' :: b) = splitSlash a ++ splitSlash b := by
  induction a with
  | nil => simp [splitSlash]
  | cons c rest ih =>
    by_cases h : c = '/'
    · subst h; simp [splitSlash, ih]
    · simp only [List.cons_append, splitSlash, if_neg h]
      cases hr : splitSlash rest with
      | nil => exact absurd hr (splitSlash_ne_nil rest)
      | cons x t => simp only [List.append_eq]; rw [ih, hr]; simp

theorem splitSlash_no_slash (a : List Char) (h : '/' ∉ a) : splitSlash a = [a] := by
  induction a with
  | nil => rfl
  | cons c rest ih =>
    have hc : c ≠ '/' := by
      intro e
      exact h (e ▸ List.mem_cons_self c rest)
    have hr : '/' ∉ rest := fun m => h (List.mem_cons_of_mem _ m)
    simp only [splitSlash, if_neg hc, ih hr]

theorem joinSegs_cons (s : List Char) (A : List (List Char)) (hA : A ≠ []) :
    joinSegs (s :: A) = s ++ '/' :: joinSegs A := by
  cases A with
  | nil => cases hA rfl
  | cons s' A' => rfl

theorem joinSegs_append (A B : List (List Char)) (hA : A ≠ []) (hB : B ≠ []) :
    joinSegs (A ++ B) = joinSegs A ++ '/' :: joinSegs B := by
  induction A with
  | nil => cases hA rfl
  | cons s A ih =>
    cases A with
    | nil => rw [List.singleton_append, joinSegs_cons s B hB]; rfl
    | cons s' A' =>
      rw [List.cons_append, joinSegs_cons s ((s' :: A') ++ B) (by simp),
        joinSegs_cons s (s' :: A') (by simp), ih (by simp)]
      simp

theorem normStep_plain (isAbs : Bool) (acc : List (List Char)) (s : List Char)
    (h : PlainSeg s) : normStep isAbs acc s = acc ++ [s] := by
  obtain ⟨h1, h2, h3⟩ := h
  simp [normStep, h1, h2, h3]

theorem foldl_normStep_plain (isAbs : Bool) (B : List (List Char))
    (acc : List (List Char)) (h : ∀ s ∈ B, PlainSeg s) :
    B.foldl (normStep isAbs) acc = acc ++ B := by
  induction B generalizing acc with
  | nil => simp
  | cons s B ih =>
    rw [List.foldl_cons, normStep_plain _ _ _ (h s (by simp)),
      ih _ (fun t ht => h t (by simp [ht]))]
    simp

theorem normSegs_append_plain (isAbs : Bool) (A B : List (List Char))
    (h : ∀ s ∈ B, PlainSeg s) :
    normSegs isAbs (A ++ B) = normSegs isAbs A ++ B := by
  unfold normSegs
  rw [List.foldl_append, foldl_normStep_plain _ _ _ h]

theorem PlainName.plainSeg {s : String} (h : PlainName s) : PlainSeg s.data :=
  ⟨h.2.1, h.2.2.1, h.2.2.2⟩

theorem PlainName.not_abs {s : String} (h : PlainName s) :
    isAbsolutePath s = false := by
  obtain ⟨h1, -, -, -⟩ := h
  unfold isAbsolutePath
  cases hd : s.data with
  | nil => rfl
  | cons c rest =>
    have hc : c ≠ '/' := by
      intro e
      exact h1 (by rw [hd, e]; exact List.mem_cons_self _ _)
    simp [headIsSlash, hc]

theorem plainName_append (n s : String) (hn : '/' ∉ n.data) (hs : '/' ∉ s.data)
    (h3 : 2 < s.data.length) : PlainName (n ++ s) := by
  have hd : (n ++ s).data = n.data ++ s.data := String.data_append n s
  have hlen : 2 < (n ++ s).data.length := by
    rw [hd, List.length_append]; omega
  refine ⟨?_, ?_, ?_, ?_⟩
  · rw [hd]
    intro hm
    rcases List.mem_append.mp hm with h | h
    · exact hn h
    · exact hs h
  · intro h; rw [h] at hlen; simp at hlen
  · intro h; rw [h] at hlen; simp at hlen
  · intro h; rw [h] at hlen; simp at hlen

theorem string_ne_empty_of_data {s : String} (h : s.data ≠ []) : s ≠ "" := by
  intro e; rw [e] at h; exact h rfl

/-! ### Lemmas about the JsMap model -/

theorem getA_nil (k : String) : getA ([] : JsMap β) k = none := rfl

theorem map_update_id {β : Type} (m : JsMap β) (k : String) (v : β)
    (h : ∀ p ∈ m, p.1 ≠ k) :
    m.map (fun p => if p.1 = k then (k, v) else p) = m := by
  induction m with
  | nil => rfl
  | cons hd tl ih =>
    have hhd : hd.1 ≠ k := h hd (List.mem_cons_self _ _)
    simp only [List.map_cons, if_neg hhd, List.cons.injEq, true_and]
    exact ih (fun p hp => h p (List.mem_cons_of_mem _ hp))

theorem getA_map_update_ne {β : Type} (m : JsMap β) (k k' : String) (v : β)
    (hne : k' ≠ k) :
    getA (m.map (fun p => if p.1 = k then (k, v) else p)) k' = getA m k' := by
  induction m with
  | nil => rfl
  | cons hd tl ih =>
    by_cases hhd : hd.1 = k
    · have h1 : ¬ (k = k') := fun e => hne e.symm
      have h2 : ¬ (hd.1 = k') := by rw [hhd]; exact h1
      simp only [getA, List.map_cons, if_pos hhd, List.find?]
      rw [show (decide (k = k')) = false from decide_eq_false h1,
        show (decide (hd.1 = k')) = false from decide_eq_false h2]
      exact ih
    · simp only [getA, List.map_cons, if_neg hhd, List.find?]
      cases hd1 : decide (hd.1 = k') with
      | true => rfl
      | false => exact ih

theorem getA_map_update_self {β : Type} (m : JsMap β) (k : String) (v : β)
    (hc : m.any (fun p => p.1 = k) = true) :
    getA (m.map (fun p => if p.1 = k then (k, v) else p)) k = some v := by
  induction m with
  | nil => simp at hc
  | cons hd tl ih =>
    by_cases hhd : hd.1 = k
    · simp [getA, List.find?, if_pos hhd]
    · have htl : tl.any (fun p => p.1 = k) = true := by
        rcases List.any_eq_true.mp hc with ⟨x, hx, hpx⟩
        rcases List.mem_cons.mp hx with e | hxtl
        · exact absurd (of_decide_eq_true hpx) (e ▸ hhd)
        · exact List.any_eq_true.mpr ⟨x, hxtl, hpx⟩
      simp only [getA, List.map_cons, if_neg hhd, List.find?]
      rw [show (decide (hd.1 = k)) = false from decide_eq_false hhd]
      exact ih htl

theorem getA_setA {β : Type} (m : JsMap β) (k k' : String) (v : β) :
    getA (setA m k v) k' = if k' = k then some v else getA m k' := by
  unfold setA
  by_cases hc : m.any (fun p => p.1 = k) = true
  · rw [if_pos hc]
    by_cases he : k' = k
    · subst he; rw [if_pos rfl]; exact getA_map_update_self m k' v hc
    · rw [if_neg he]; exact getA_map_update_ne m k k' v he
  · rw [if_neg hc]
    have hnone : ∀ p ∈ m, ¬ (p.1 = k) := by
      intro p hp hpk
      exact hc (List.any_eq_true.mpr ⟨p, hp, decide_eq_true hpk⟩)
    unfold getA
    rw [List.find?_append]
    by_cases he : k' = k
    · subst he
      have : List.find? (fun p => p.1 = k') m = none :=
        List.find?_eq_none.mpr (fun p hp => by
          simpa using fun e => hnone p hp e)
      simp [this, List.find?]
    · have : List.find? (fun p => p.1 = k') [(k, v)] = none := by
        simp only [List.find?]
        rw [show (decide ((k, v).1 = k')) = false from
          decide_eq_false (fun e => he e.symm)]
      rw [this, if_neg he]
      cases List.find? (fun p => p.1 = k') m <;> rfl

theorem keys_setA {β : Type} (m : JsMap β) (k : String) (v : β) :
    (setA m k v).map Prod.fst =
      if m.any (fun p => p.1 = k) then m.map Prod.fst
      else m.map Prod.fst ++ [k] := by
  unfold setA
  by_cases hc : m.any (fun p => p.1 = k) = true
  · rw [if_pos hc, if_pos hc, List.map_map]
    refine List.map_congr_left (fun p _ => ?_)
    by_cases hp : p.1 = k
    · simp [hp, Function.comp]
    · simp [hp, Function.comp]
  · rw [if_neg hc, if_neg hc]
    simp

theorem keysNodup_setA {β : Type} (m : JsMap β) (k : String) (v : β)
    (h : keysNodup m) : keysNodup (setA m k v) := by
  unfold keysNodup
  rw [keys_setA]
  by_cases hc : m.any (fun p => p.1 = k) = true
  · rw [if_pos hc]; exact h
  · rw [if_neg hc]
    have hk : k ∉ m.map Prod.fst := by
      intro hm
      rcases List.mem_map.mp hm with ⟨p, hp, hpk⟩
      exact hc (List.any_eq_true.mpr ⟨p, hp, decide_eq_true hpk⟩)
    rw [List.nodup_append]
    refine ⟨h, by simp, ?_⟩
    intro a ha hb
    rw [List.mem_singleton] at hb
    subst hb
    exact hk ha

/-! ### Generic characterization of the registry fold -/

theorem getA_tableFold {α β : Type} (key : α → String) (val : α → β)
    (l : List α) (m0 : JsMap β) (k : String) :
    getA (tableFold key val m0 l) k =
      match (l.filter (fun p => key p = k)).getLast? with
      | some p => some (val p)
      | none => getA m0 k := by
  induction l generalizing m0 with
  | nil => simp [tableFold]
  | cons q l ih =>
    rw [show tableFold key val m0 (q :: l)
        = tableFold key val (setA m0 (key q) (val q)) l from rfl, ih]
    rw [List.filter_cons]
    by_cases hq : key q = k
    · rw [if_pos (decide_eq_true hq)]
      cases hl : (l.filter (fun p => key p = k)).getLast? with
      | some p =>
        have hne : l.filter (fun p => key p = k) ≠ [] := by
          intro e; rw [e] at hl; simp at hl
        cases hfe : l.filter (fun p => key p = k) with
        | nil => exact absurd hfe hne
        | cons x t =>
          rw [hfe] at hl
          rw [List.getLast?_cons_cons, hl]
      | none =>
        have hfe : l.filter (fun p => key p = k) = [] :=
          List.getLast?_eq_none_iff.mp hl
        rw [hfe]
        simp [getA_setA, hq.symm]
    · rw [if_neg (by simpa using hq)]
      cases hl : (l.filter (fun p => key p = k)).getLast? with
      | some p => rfl
      | none =>
        have : k ≠ key q := fun e => hq e.symm
        simp [getA_setA, this]

theorem keysNodup_tableFold {α β : Type} (key : α → String) (val : α → β)
    (l : List α) (m0 : JsMap β) (h : keysNodup m0) :
    keysNodup (tableFold key val m0 l) := by
  induction l generalizing m0 with
  | nil => exact h
  | cons q l ih => exact ih _ (keysNodup_setA _ _ _ h)

/-! ### The registry as three table folds -/

theorem buildRegistry_eq (cwd : String) (l : List String) :
    buildRegistry cwd l =
      { wasmMap := tableFold (wasmFilename cwd) (crateInfo cwd) [] l
        cratePathLookup := tableFold (fun p => p) (wasmFilename cwd) [] l
        crateNameLookup := tableFold (_crateName cwd) (wasmFilename cwd) [] l } := by
  have aux : ∀ (l : List String) (reg : Registry),
      l.foldl
        (fun reg cratePath =>
          let crateName := _crateName cwd cratePath
          let wasmFile := crateName ++ "_bg.wasm"
          let localPath := resolvePath cwd ["node_modules", crateName, wasmFile]
          { wasmMap := setA reg.wasmMap wasmFile { path := localPath, name := crateName }
            cratePathLookup := setA reg.cratePathLookup cratePath wasmFile
            crateNameLookup := setA reg.crateNameLookup crateName wasmFile })
        reg =
      { wasmMap := tableFold (wasmFilename cwd) (crateInfo cwd) reg.wasmMap l
        cratePathLookup := tableFold (fun p => p) (wasmFilename cwd) reg.cratePathLookup l
        crateNameLookup := tableFold (_crateName cwd) (wasmFilename cwd) reg.crateNameLookup l } := by
    intro l
    induction l with
    | nil => intro reg; rfl
    | cons q l ih => intro reg; exact ih _
  exact aux l _

theorem getA_wasmMap (cwd : String) (l : List String) (k : String) :
    getA (buildRegistry cwd l).wasmMap k =
      ((l.filter (fun p => wasmFilename cwd p = k)).getLast?).map (crateInfo cwd) := by
  rw [buildRegistry_eq, getA_tableFold]
  cases (l.filter (fun p => wasmFilename cwd p = k)).getLast? <;> rfl

theorem getA_cratePathLookup (cwd : String) (l : List String) (k : String) :
    getA (buildRegistry cwd l).cratePathLookup k =
      ((l.filter (fun p => p = k)).getLast?).map (wasmFilename cwd) := by
  rw [buildRegistry_eq, getA_tableFold]
  cases (l.filter (fun p => p = k)).getLast? <;> rfl

theorem getA_crateNameLookup (cwd : String) (l : List String) (k : String) :
    getA (buildRegistry cwd l).crateNameLookup k =
      ((l.filter (fun p => _crateName cwd p = k)).getLast?).map (wasmFilename cwd) := by
  rw [buildRegistry_eq, getA_tableFold]
  cases (l.filter (fun p => _crateName cwd p = k)).getLast? <;> rfl

theorem keysNodup_wasmMap (cwd : String) (l : List String) :
    keysNodup (buildRegistry cwd l).wasmMap := by
  rw [buildRegistry_eq]
  exact keysNodup_tableFold _ _ _ _ (by simp [keysNodup])

theorem joinSegs_concat (A : List (List Char)) (s : List Char) (hA : A ≠ []) :
    joinSegs (A ++ [s]) = joinSegs A ++ '/' :: s :=
  joinSegs_append A [s] hA (by simp)

/-! ### Path computations used by the plugin -/

theorem data_append_sep (a n : String) :
    (a ++ "/" ++ n).data = a.data ++ '/' :: n.data := by
  rw [String.data_append, String.data_append,
    show "/".data = ['/'] from rfl]
  simp

theorem resolvePath_cons_rel (cwd n : String) (rest : List String)
    (h : isAbsolutePath n = false) :
    resolvePath cwd (n :: rest) = resolvePath (cwd ++ "/" ++ n) rest := by
  unfold resolvePath
  rw [List.foldl_cons, h]
  simp

theorem resolvePath_nil (cwd : String) :
    resolvePath cwd [] = ⟨'/' :: joinSegs (normSegs true (splitSlash cwd.data))⟩ := rfl

theorem normSplit_concat (cwd n : String) (hn : PlainName n) :
    normSegs true (splitSlash (cwd ++ "/" ++ n).data) =
      normSegs true (splitSlash cwd.data) ++ [n.data] := by
  rw [data_append_sep, splitSlash_append, splitSlash_no_slash n.data hn.1,
    normSegs_append_plain]
  intro s hs
  rw [List.mem_singleton] at hs
  subst hs
  exact hn.plainSeg

theorem nodeModulesPlain : PlainName "node_modules" := by
  refine ⟨?_, by decide, by decide, by decide⟩
  decide

/-- The core path-shape fact for the registry: with `cwd` the working
directory, `path.resolve('node_modules', name, file)` is the package-cache
root `path.resolve('node_modules')` followed by `/name/file`. -/
theorem resolvePath_cache_shape (cwd n w : String) (hn : PlainName n)
    (hw : PlainName w) :
    resolvePath cwd ["node_modules", n, w] =
      resolvePath cwd ["node_modules"] ++ "/" ++ n ++ "/" ++ w := by
  rw [resolvePath_cons_rel cwd "node_modules" _ nodeModulesPlain.not_abs,
    resolvePath_cons_rel _ n _ hn.not_abs,
    resolvePath_cons_rel _ w _ hw.not_abs,
    resolvePath_nil, resolvePath_cons_rel cwd "node_modules" _ nodeModulesPlain.not_abs,
    resolvePath_nil]
  apply String.ext
  rw [normSplit_concat _ w hw, normSplit_concat _ n hn,
    normSplit_concat cwd "node_modules" nodeModulesPlain]
  have hT : normSegs true (splitSlash cwd.data) ++ ["node_modules".data] ≠ [] := by
    simp
  have hT2 : (normSegs true (splitSlash cwd.data) ++ ["node_modules".data]) ++ [n.data] ≠ [] := by
    simp
  rw [show normSegs true (splitSlash cwd.data) ++ ["node_modules".data] ++ [n.data] ++ [w.data]
      = ((normSegs true (splitSlash cwd.data) ++ ["node_modules".data]) ++ [n.data]) ++ [w.data]
    from by simp]
  rw [joinSegs_concat _ w.data hT2, joinSegs_concat _ n.data hT]
  rw [data_append_sep, data_append_sep]
  simp

/-- The glue-code path `path.join('./node_modules', n, m)` normalizes to
`node_modules/n/m` for plain segment names. -/
theorem joinPath_dot_node_modules (n m : String) (hn : PlainName n)
    (hm : PlainName m) :
    joinPath ["./node_modules", n, m] = "node_modules/" ++ n ++ "/" ++ m := by
  have hnne : n ≠ "" := string_ne_empty_of_data hn.2.1
  have hmne : m ≠ "" := string_ne_empty_of_data hm.2.1
  have hparts : (["./node_modules", n, m].filter (fun p => p ≠ "")) =
      ["./node_modules", n, m] := by
    simp [List.filter, hnne, hmne]
  unfold joinPath
  rw [hparts, if_neg (by simp)]
  unfold joinParts
  have hjoin : joinSegs (["./node_modules", n, m].map String.data) =
      ['.'] ++ '/' :: ("node_modules".data ++ '/' :: (n.data ++ '/' :: m.data)) := by
    show "./node_modules".data ++ '/' :: (n.data ++ '/' :: m.data) = _
    rfl
  rw [hjoin]
  rw [show headIsSlash
      (['.'] ++ '/' :: ("node_modules".data ++ '/' :: (n.data ++ '/' :: m.data))) = false
    from rfl]
  have hsplit : splitSlash
      (['.'] ++ '/' :: ("node_modules".data ++ '/' :: (n.data ++ '/' :: m.data))) =
      [['.']] ++ ["node_modules".data] ++ [n.data] ++ [m.data] := by
    rw [splitSlash_append, splitSlash_append,
      splitSlash_no_slash ['.'] (by decide),
      splitSlash_no_slash "node_modules".data nodeModulesPlain.1]
    rw [splitSlash_append, splitSlash_no_slash n.data hn.1,
      splitSlash_no_slash m.data hm.1]
    simp
  rw [hsplit]
  have hnorm : normSegs false ([['.']] ++ ["node_modules".data] ++ [n.data] ++ [m.data]) =
      ["node_modules".data] ++ [n.data] ++ [m.data] := by
    rw [show ([['.']] ++ ["node_modules".data] ++ [n.data] ++ [m.data]) =
        [['.']] ++ (["node_modules".data] ++ [n.data] ++ [m.data]) from by simp]
    rw [normSegs_append_plain]
    · rfl
    · intro s hs
      simp only [List.mem_append, List.mem_singleton] at hs
      rcases hs with (h | h) | h
      · subst h; exact nodeModulesPlain.plainSeg
      · subst h; exact hn.plainSeg
      · subst h; exact hm.plainSeg
  rw [hnorm]
  rw [if_neg (by simp)]
  apply String.ext
  show joinSegs ["node_modules".data, n.data, m.data] = _
  rw [String.data_append, String.data_append, String.data_append]
  rw [show "node_modules/".data = "node_modules".data ++ ['/'] from rfl,
    show "/".data = ['/'] from rfl]
  show "node_modules".data ++ '/' :: (n.data ++ '/' :: m.data) = _
  simp

/-! ### Miscellaneous string facts -/

theorem string_append_right_cancel {a b s : String} (h : a ++ s = b ++ s) :
    a = b := by
  apply String.ext
  have h2 := congrArg String.data h
  rw [String.data_append, String.data_append] at h2
  exact List.append_cancel_right h2

theorem string_append_left_cancel {a b s : String} (h : s ++ a = s ++ b) :
    a = b := by
  apply String.ext
  have h2 := congrArg String.data h
  rw [String.data_append, String.data_append] at h2
  exact List.append_cancel_left h2

theorem crateName_of_wasmFilename {cwd p q : String}
    (h : wasmFilename cwd q = wasmFilename cwd p) :
    _crateName cwd q = _crateName cwd p :=
  string_append_right_cancel h

theorem crateInfo_congr {cwd p q : String}
    (h : _crateName cwd q = _crateName cwd p) :
    crateInfo cwd q = crateInfo cwd p := by
  unfold crateInfo wasmFilename
  rw [h]

/-- Every artifact filename the registry stores ends (case-insensitively)
in `.wasm`, so the middleware's extension check never rejects a map hit. -/
theorem jsEndsWith_toLower_wasm (n : String) :
    jsEndsWith (jsToLower (n ++ "_bg.wasm")) ".wasm" = true := by
  unfold jsEndsWith jsToLower
  rw [show ((⟨(n ++ "_bg.wasm").data.map Char.toLower⟩ : String)).data
      = (n ++ "_bg.wasm").data.map Char.toLower from rfl]
  rw [String.data_append, List.map_append]
  refine List.isSuffixOf_iff_suffix.mpr ?_
  rw [show "_bg.wasm".data.map Char.toLower = "_bg.wasm".data from by decide]
  exact (show ".wasm".data <:+ "_bg.wasm".data from by decide).trans
    (List.suffix_append _ _)

theorem wasmFilenamePlain (cwd p : String) (hn : PlainName (_crateName cwd p)) :
    PlainName (wasmFilename cwd p) :=
  plainName_append _ "_bg.wasm" hn.1 (by decide) (by decide)

/-! ### Claim theorems -/

/-- C10: registry construction never rejects duplicate derived names; each
lookup key in each of the three tables maps to the data of the last
registration that produced that key (later registrations silently
overwrite earlier ones). -/
theorem c10_registry_last_wins (cwd : String) (l : List String) (k : String) :
    getA (buildRegistry cwd l).wasmMap k =
      ((l.filter (fun p => wasmFilename cwd p = k)).getLast?).map (crateInfo cwd) ∧
    getA (buildRegistry cwd l).cratePathLookup k =
      ((l.filter (fun p => p = k)).getLast?).map (wasmFilename cwd) ∧
    getA (buildRegistry cwd l).crateNameLookup k =
      ((l.filter (fun p => _crateName cwd p = k)).getLast?).map (wasmFilename cwd) :=
  ⟨getA_wasmMap cwd l k, getA_cratePathLookup cwd l k, getA_crateNameLookup cwd l k⟩

/-- C5: `resolveId(id)` returns the prefixed marker identifier exactly when
`id` equals a registered package name, and `null` otherwise (with an empty
registry, every identifier resolves to `null`). -/
theorem c5_resolveId_iff (cwd : String) (l : List String) (id : String) :
    resolveId (buildRegistry cwd l) id =
      if id ∈ l.map (_crateName cwd) then some (marker ++ id) else none := by
  unfold resolveId
  rw [getA_crateNameLookup]
  by_cases h : id ∈ l.map (_crateName cwd)
  · rw [if_pos h]
    rcases List.mem_map.mp h with ⟨p, hp, hpe⟩
    have hne : l.filter (fun q => _crateName cwd q = id) ≠ [] := by
      intro e
      exact absurd hpe (by
        have := List.filter_eq_nil_iff.mp e p hp
        simpa using this)
    cases hgl : (l.filter (fun q => _crateName cwd q = id)).getLast? with
    | none => exact absurd (List.getLast?_eq_none_iff.mp hgl) hne
    | some q => simp
  · rw [if_neg h]
    have hfe : l.filter (fun q => _crateName cwd q = id) = [] := by
      rw [List.filter_eq_nil_iff]
      intro a ha hq
      exact h (List.mem_map.mpr ⟨a, ha, of_decide_eq_true hq⟩)
    rw [hfe]
    simp

/-- C6: for a registered location `p`, the derived name is the base name of
the resolved absolute path, the artifact filename is `name + "_bg.wasm"`,
and the registry stores — independently of registration order and of the
other entries — the expected disk path
`<packageCacheRoot>/<name>/<artifactFilename>` for it. -/
theorem c6_registry_derivations (cwd p : String) (l : List String)
    (hp : p ∈ l) (hn : PlainName (_crateName cwd p)) :
    _crateName cwd p = basename (resolvePath cwd [p]) ∧
    wasmFilename cwd p = _crateName cwd p ++ "_bg.wasm" ∧
    getA (buildRegistry cwd l).cratePathLookup p = some (wasmFilename cwd p) ∧
    getA (buildRegistry cwd l).wasmMap (wasmFilename cwd p) =
      some { path := resolvePath cwd ["node_modules"] ++ "/" ++ _crateName cwd p
               ++ "/" ++ wasmFilename cwd p
             name := _crateName cwd p } := by
  refine ⟨rfl, rfl, ?_, ?_⟩
  · rw [getA_cratePathLookup]
    have hmem : p ∈ l.filter (fun q => q = p) :=
      List.mem_filter.mpr ⟨hp, by simp⟩
    cases hgl : (l.filter (fun q => q = p)).getLast? with
    | none =>
      rw [List.getLast?_eq_none_iff.mp hgl] at hmem
      simp at hmem
    | some q =>
      have hq : q ∈ l.filter (fun q => q = p) := List.mem_of_mem_getLast? hgl
      have : q = p := by simpa using (List.mem_filter.mp hq).2
      subst this
      rfl
  · rw [getA_wasmMap]
    have hmem : p ∈ l.filter (fun q => wasmFilename cwd q = wasmFilename cwd p) :=
      List.mem_filter.mpr ⟨hp, by simp⟩
    cases hgl : (l.filter (fun q => wasmFilename cwd q = wasmFilename cwd p)).getLast? with
    | none =>
      rw [List.getLast?_eq_none_iff.mp hgl] at hmem
      simp at hmem
    | some q =>
      have hq : q ∈ l.filter (fun q => wasmFilename cwd q = wasmFilename cwd p) :=
        List.mem_of_mem_getLast? hgl
      have heq : wasmFilename cwd q = wasmFilename cwd p := by
        simpa using (List.mem_filter.mp hq).2
      rw [Option.map_some']
      rw [crateInfo_congr (crateName_of_wasmFilename heq)]
      unfold crateInfo
      rw [resolvePath_cache_shape cwd _ _ hn (wasmFilenamePlain cwd p hn)]

/-- Witness for C6 at a concrete registry. -/
theorem c6_registry_derivations_witness :
    _crateName "/proj" "./crates/demo"
      = basename (resolvePath "/proj" ["./crates/demo"]) ∧
    wasmFilename "/proj" "./crates/demo"
      = _crateName "/proj" "./crates/demo" ++ "_bg.wasm" ∧
    getA (buildRegistry "/proj" ["./crates/demo"]).cratePathLookup "./crates/demo"
      = some (wasmFilename "/proj" "./crates/demo") ∧
    getA (buildRegistry "/proj" ["./crates/demo"]).wasmMap
        (wasmFilename "/proj" "./crates/demo") =
      some { path := resolvePath "/proj" ["node_modules"] ++ "/"
               ++ _crateName "/proj" "./crates/demo"
               ++ "/" ++ wasmFilename "/proj" "./crates/demo"
             name := _crateName "/proj" "./crates/demo" } :=
  c6_registry_derivations "/proj" "./crates/demo" ["./crates/demo"]
    (by decide) ⟨by decide, by decide, by decide, by decide⟩

/-- C2 (code bug evidence): the command `_runWasmPackBuild` constructs and
runs is completely independent of the crate location passed to it — the
function receives `cratePath` but never puts it into the command nor sets a
working directory, so the external compiler is never pointed at the
package root.  Concretely, the command is just
`<plugin>/node_modules/.bin/wasm-pack build --target web --out-dir <dir>`. -/
theorem c2_command_ignores_location :
    (∀ (exec : String → ExecOutcome) (dirnameVar p₁ p₂ outDir : String),
      _runWasmPackBuild exec dirnameVar p₁ outDir
        = _runWasmPackBuild exec dirnameVar p₂ outDir) ∧
    buildCommand "/plugin/dist" "pkg"
      = "/plugin/node_modules/.bin/wasm-pack build --target web --out-dir pkg" := by
  refine ⟨fun exec dn p1 p2 outDir => rfl, by decide⟩

/-- C9: one invocation of the Compiler Invoker runs exactly one external
command; the promise resolves with the process's stderr on success and
rejects with a message wrapping the process's own error on failure; the
output directory defaults to `'pkg'`. -/
theorem c9_compile_contract (exec : String → ExecOutcome)
    (dirnameVar cratePath outDir : String) :
    _runWasmPackBuildDefault exec dirnameVar cratePath
      = _runWasmPackBuild exec dirnameVar cratePath "pkg" ∧
    (_runWasmPackBuild exec dirnameVar cratePath outDir).1
      = [buildCommand dirnameVar outDir] ∧
    ((exec (buildCommand dirnameVar outDir)).error = none →
      (_runWasmPackBuild exec dirnameVar cratePath outDir).2
        = Except.ok (exec (buildCommand dirnameVar outDir)).stderr) ∧
    (∀ e, (exec (buildCommand dirnameVar outDir)).error = some e →
      (_runWasmPackBuild exec dirnameVar cratePath outDir).2
        = Except.error ("wasm-pack execution error: " ++ e)) := by
  refine ⟨rfl, rfl, ?_, ?_⟩
  · intro h
    simp [_runWasmPackBuild, h]
  · intro e h
    simp [_runWasmPackBuild, h]

/-- Witness for C9: a succeeding and a failing invocation. -/
theorem c9_compile_contract_witness :
    (_runWasmPackBuild (fun _ => ⟨none, "", "diag"⟩) "/plugin/dist"
        "./crates/demo" "pkg").2 = Except.ok "diag" ∧
    (_runWasmPackBuild (fun _ => ⟨some "boom", "", ""⟩) "/plugin/dist"
        "./crates/demo" "pkg").2
      = Except.error ("wasm-pack execution error: " ++ "boom") :=
  ⟨(c9_compile_contract (fun _ => ⟨none, "", "diag"⟩) "/plugin/dist"
      "./crates/demo" "pkg").2.2.1 rfl,
   (c9_compile_contract (fun _ => ⟨some "boom", "", ""⟩) "/plugin/dist"
      "./crates/demo" "pkg").2.2.2 "boom" rfl⟩

/-- C4: loading a marker-prefixed identifier returns exactly the text on
disk at `<cacheRoot>/<name>/<name>.js` for the name obtained by stripping
the prefix; loading any non-prefixed identifier returns nothing. -/
theorem c4_load_contract (fs : String → Option String) (n code : String)
    (hn : PlainName n)
    (hfile : fs ("node_modules/" ++ n ++ "/" ++ (n ++ ".js")) = some code) :
    load fs (marker ++ n) = LoadOutcome.loaded code ∧
    ∀ id, marker.data.isPrefixOf id.data = false → load fs id = LoadOutcome.skip := by
  constructor
  · have hpre : marker.data.isPrefixOf (marker ++ n).data = true := by
      rw [String.data_append]
      exact List.isPrefixOf_iff_prefix.mpr (List.prefix_append _ _)
    have hname : (⟨((marker ++ n).data.drop marker.data.length : List Char)⟩ : String) = n := by
      rw [String.data_append, List.drop_left]
    have hjs : PlainName (n ++ ".js") :=
      plainName_append n ".js" hn.1 (by decide) (by decide)
    simp only [load, hpre, if_true, hname]
    rw [joinPath_dot_node_modules n (n ++ ".js") hn hjs, hfile]
  · intro id h
    simp [load, h]

/-- Witness for C4 at a concrete cache state. -/
theorem c4_load_contract_witness :
    load (fun p => if p = "node_modules/demo/demo.js" then some "GLUE" else none)
        (marker ++ "demo")
      = LoadOutcome.loaded "GLUE" :=
  (c4_load_contract
    (fun p => if p = "node_modules/demo/demo.js" then some "GLUE" else none)
    "demo" "GLUE" ⟨by decide, by decide, by decide, by decide⟩ (by decide)).1

/-- C1: when the compile step for a registered package fails (or, after a
successful compile, reading its manifest fails), `prepareBuild` emits one
error diagnostic naming that package and the underlying cause, performs no
filesystem (manifest) mutation for it, and the orchestrator continues with
the remaining packages; `buildStart` is a total function of its inputs, so
the pass always returns. -/
theorem c1_failure_isolated (exec : String → ExecOutcome)
    (dirnameVar cwd : String) (st : BuildState) (p : String)
    (rest : List String) :
    (∀ e, (exec (commandOf dirnameVar cwd p)).error = some e →
      (prepareBuild exec dirnameVar cwd st p).fs = st.fs ∧
      (prepareBuild exec dirnameVar cwd st p).errorLog
        = st.errorLog
          ++ [buildErrMsg (_crateName cwd p) ("wasm-pack execution error: " ++ e)]) ∧
    ((exec (commandOf dirnameVar cwd p)).error = none →
      getA st.fs (manifestPath cwd p) = none →
      (prepareBuild exec dirnameVar cwd st p).fs = st.fs ∧
      (prepareBuild exec dirnameVar cwd st p).errorLog
        = st.errorLog
          ++ [buildErrMsg (_crateName cwd p) (readJsonErr (manifestPath cwd p))]) ∧
    buildStart exec dirnameVar cwd st (p :: rest)
      = buildStart exec dirnameVar cwd (prepareBuild exec dirnameVar cwd st p) rest := by
  refine ⟨?_, ?_, rfl⟩
  · intro e he
    unfold commandOf at he
    simp [prepareBuild, _runWasmPackBuild, he]
  · intro he hm
    unfold commandOf at he
    unfold manifestPath at hm
    simp [prepareBuild, _runWasmPackBuild, he, hm]
    rfl

/-- Witness for C1: a failing compile for one crate, with one more crate
still to process. -/
theorem c1_failure_isolated_witness :
    (prepareBuild (fun _ => ⟨some "boom", "", ""⟩) "/plugin/dist" "/proj"
        ⟨[], [], []⟩ "./crates/demo").fs = [] ∧
    (prepareBuild (fun _ => ⟨some "boom", "", ""⟩) "/plugin/dist" "/proj"
        ⟨[], [], []⟩ "./crates/demo").errorLog
      = [] ++ [buildErrMsg (_crateName "/proj" "./crates/demo")
          ("wasm-pack execution error: " ++ "boom")] :=
  (c1_failure_isolated (fun _ => ⟨some "boom", "", ""⟩) "/plugin/dist" "/proj"
    ⟨[], [], []⟩ "./crates/demo" ["./crates/other"]).1 "boom" rfl

/-- C7: after the orchestrator pass reaches a package whose compile
succeeds and whose manifest is readable, the manifest at that package's
output location has been rewritten in place with its `type` field set to
`"module"` and all other fields preserved. -/
theorem c7_manifest_patched (exec : String → ExecOutcome)
    (dirnameVar cwd : String) (st : BuildState) (ps : List String)
    (p : String) (j : Manifest)
    (hok : (exec (commandOf dirnameVar cwd p)).error = none)
    (hj : getA (buildStart exec dirnameVar cwd st ps).fs (manifestPath cwd p)
      = some j) :
    getA (buildStart exec dirnameVar cwd st (ps ++ [p])).fs (manifestPath cwd p)
      = some (setA j "type" "module") ∧
    getA (setA j "type" "module") "type" = some "module" ∧
    ∀ k, k ≠ "type" → getA (setA j "type" "module") k = getA j k := by
  refine ⟨?_, ?_, ?_⟩
  · unfold buildStart
    rw [List.foldl_append, List.foldl_cons, List.foldl_nil]
    unfold buildStart at hj
    unfold commandOf at hok
    unfold manifestPath at hj ⊢
    simp only [prepareBuild, _runWasmPackBuild, hok, hj]
    rw [getA_setA]
    simp
  · rw [getA_setA]
    simp
  · intro k hk
    rw [getA_setA, if_neg hk]

/-- Witness for C7: a one-crate pass over a cache holding its manifest. -/
theorem c7_manifest_patched_witness :
    getA (buildStart (fun _ => ⟨none, "", ""⟩) "/plugin/dist" "/proj"
        ⟨[(manifestPath "/proj" "./crates/demo", [("name", "demo")])], [], []⟩
        ([] ++ ["./crates/demo"])).fs (manifestPath "/proj" "./crates/demo")
      = some (setA [("name", "demo")] "type" "module") :=
  (c7_manifest_patched (fun _ => ⟨none, "", ""⟩) "/plugin/dist" "/proj"
    ⟨[(manifestPath "/proj" "./crates/demo", [("name", "demo")])], [], []⟩
    [] "./crates/demo" [("name", "demo")] rfl (by decide)).1

/-- C3 counterexample: the request `/MY_CRATE_BG.WASM` ends
case-insensitively in the registered artifact filename `my_crate_bg.wasm`
(first two conjuncts), yet the middleware passes it to the next handler
instead of answering 200 — the `wasmMap` lookup is exact and
case-sensitive, so the claim's case-insensitive matching does not hold. -/
theorem c3_case_sensitivity_counterexample :
    jsEndsWith (jsToLower "/MY_CRATE_BG.WASM") (jsToLower "my_crate_bg.wasm") = true ∧
    (getA (buildRegistry "/proj" ["./my_crate"]).wasmMap "my_crate_bg.wasm").isSome
      = true ∧
    devMiddleware (fun _ => some "WASMBYTES")
        (buildRegistry "/proj" ["./my_crate"]).wasmMap (some "/MY_CRATE_BG.WASM")
      = MiddlewareAction.next :=
  ⟨by decide, by decide, by decide⟩

/-- C3 (amended): the middleware answers 200 with the no-cache header, the
wasm content type and the artifact file's content exactly when the
request's final path segment equals — case-sensitively — a registered
artifact filename (whose lowercased form always ends in `.wasm`, so the
extension check never rejects a hit); every other request is passed to the
next handler with no response written. -/
theorem c3_middleware_exact_match (cwd : String) (l : List String)
    (fs : String → Option String) (url : String) :
    (∀ e, getA (buildRegistry cwd l).wasmMap (basename url) = some e →
      devMiddleware fs (buildRegistry cwd l).wasmMap (some url)
        = MiddlewareAction.respond 200 wasmHeaders (fs e.path)) ∧
    (getA (buildRegistry cwd l).wasmMap (basename url) = none →
      devMiddleware fs (buildRegistry cwd l).wasmMap (some url)
        = MiddlewareAction.next) := by
  constructor
  · intro e he
    have hq : ∃ q ∈ l, wasmFilename cwd q = basename url := by
      rw [getA_wasmMap] at he
      cases hgl : (l.filter (fun q => wasmFilename cwd q = basename url)).getLast? with
      | none => rw [hgl] at he; simp at he
      | some q =>
        have hqf := List.mem_of_mem_getLast? hgl
        exact ⟨q, (List.mem_filter.mp hqf).1,
          by simpa using (List.mem_filter.mp hqf).2⟩
    rcases hq with ⟨q, -, hqe⟩
    have hends : jsEndsWith (jsToLower (basename url)) ".wasm" = true := by
      rw [← hqe]
      exact jsEndsWith_toLower_wasm (_crateName cwd q)
    simp [devMiddleware, he, hends]
  · intro he
    simp [devMiddleware, he]

/-- Witness for the amended C3: a lower-case request for a registered
artifact is served with its on-disk bytes. -/
theorem c3_middleware_exact_match_witness :
    devMiddleware
        (fun p => if p = "/proj/node_modules/my_crate/my_crate_bg.wasm"
          then some "WASMBYTES" else none)
        (buildRegistry "/proj" ["./my_crate"]).wasmMap
        (some "/pkg/my_crate_bg.wasm")
      = MiddlewareAction.respond 200 wasmHeaders
          ((fun p => if p = "/proj/node_modules/my_crate/my_crate_bg.wasm"
            then some "WASMBYTES" else none)
            ({ path := "/proj/node_modules/my_crate/my_crate_bg.wasm"
               name := "my_crate" } : CrateInfoType).path) :=
  (c3_middleware_exact_match "/proj" ["./my_crate"]
    (fun p => if p = "/proj/node_modules/my_crate/my_crate_bg.wasm"
      then some "WASMBYTES" else none)
    "/pkg/my_crate_bg.wasm").1
    { path := "/proj/node_modules/my_crate/my_crate_bg.wasm", name := "my_crate" }
    (by decide)

/-! ### Asset emission lemmas and claim -/

theorem buildEnd_all_reads (fs : String → Option String)
    (m : JsMap CrateInfoType)
    (h : ∀ fc ∈ m, (fs fc.2.path).isSome = true) :
    buildEnd fs m = (m.map (emittedOf fs), true) := by
  induction m with
  | nil => rfl
  | cons fc rest ih =>
    have hfc := h fc (List.mem_cons_self _ _)
    cases hfs : fs fc.2.path with
    | none => rw [hfs] at hfc; simp at hfc
    | some bytes =>
      simp only [buildEnd, hfs]
      rw [ih (fun x hx => h x (List.mem_cons_of_mem _ hx))]
      simp [emittedOf, hfs]

theorem emitted_filter_unique (fs : String → Option String)
    (m : JsMap CrateInfoType) (hnd : (m.map Prod.fst).Nodup)
    (fc : String × CrateInfoType) (hfc : fc ∈ m) :
    (m.map (emittedOf fs)).filter (fun a => a.fileName = "assets/" ++ fc.1)
      = [emittedOf fs fc] := by
  induction m with
  | nil => simp at hfc
  | cons hd tl ih =>
    rw [List.map_cons, List.filter_cons]
    have hnd2 : (hd.1 :: tl.map Prod.fst).Nodup := by
      rw [List.map_cons] at hnd
      exact hnd
    have hnd' := List.nodup_cons.mp hnd2
    rcases List.mem_cons.mp hfc with he | htl
    · subst he
      rw [if_pos (by simp [emittedOf])]
      have hrest : (tl.map (emittedOf fs)).filter
          (fun a => a.fileName = "assets/" ++ fc.1) = [] := by
        rw [List.filter_eq_nil_iff]
        intro a ha
        rcases List.mem_map.mp ha with ⟨fc', hfc', rfl⟩
        simp only [emittedOf, decide_eq_true_eq]
        intro hEq
        have : fc'.1 = fc.1 := string_append_left_cancel hEq
        exact hnd'.1 (this ▸ List.mem_map.mpr ⟨fc', hfc', rfl⟩)
      rw [hrest]
    · have hne : hd.1 ≠ fc.1 := by
        intro e
        exact hnd'.1 (e ▸ List.mem_map.mpr ⟨fc, htl, rfl⟩)
      rw [if_neg (by
        simp only [emittedOf, decide_eq_true_eq]
        intro hEq
        exact hne (string_append_left_cancel hEq))]
      exact ih hnd'.2 htl

/-- C8: with every registered artifact readable, the emit pass completes
and registers exactly one output asset per artifact-table entry, at
`assets/<artifactFilename>`, whose content is the bytes on disk at that
artifact's disk path at emit time. -/
theorem c8_emit_assets (cwd : String) (l : List String)
    (fs : String → Option String)
    (h : ∀ fc ∈ (buildRegistry cwd l).wasmMap, (fs fc.2.path).isSome = true) :
    (buildEnd fs (buildRegistry cwd l).wasmMap).2 = true ∧
    (buildEnd fs (buildRegistry cwd l).wasmMap).1.length
      = (buildRegistry cwd l).wasmMap.length ∧
    ∀ fc ∈ (buildRegistry cwd l).wasmMap, ∃ bytes,
      fs fc.2.path = some bytes ∧
      (buildEnd fs (buildRegistry cwd l).wasmMap).1.filter
          (fun a => a.fileName = "assets/" ++ fc.1)
        = [{ fileName := "assets/" ++ fc.1, source := bytes }] := by
  rw [buildEnd_all_reads fs _ h]
  refine ⟨rfl, by simp, ?_⟩
  intro fc hfc
  refine ⟨(fs fc.2.path).getD "", ?_, ?_⟩
  · have hs := h fc hfc
    cases hfs : fs fc.2.path with
    | none => rw [hfs] at hs; simp at hs
    | some b => simp [hfs]
  · exact emitted_filter_unique fs _ (keysNodup_wasmMap cwd l) fc hfc

/-- Witness for C8 on a one-crate registry with its artifact on disk. -/
theorem c8_emit_assets_witness :
    (buildEnd
        (fun p => if p = "/proj/node_modules/my_crate/my_crate_bg.wasm"
          then some "WASMBYTES" else none)
        (buildRegistry "/proj" ["./my_crate"]).wasmMap).2 = true ∧
    (buildEnd
        (fun p => if p = "/proj/node_modules/my_crate/my_crate_bg.wasm"
          then some "WASMBYTES" else none)
        (buildRegistry "/proj" ["./my_crate"]).wasmMap).1.length
      = (buildRegistry "/proj" ["./my_crate"]).wasmMap.length :=
  ⟨(c8_emit_assets "/proj" ["./my_crate"]
      (fun p => if p = "/proj/node_modules/my_crate/my_crate_bg.wasm"
        then some "WASMBYTES" else none) (by decide)).1,
   (c8_emit_assets "/proj" ["./my_crate"]
      (fun p => if p = "/proj/node_modules/my_crate/my_crate_bg.wasm"
        then some "WASMBYTES" else none) (by decide)).2.1⟩

end WasmPackPlugin
